import Mathlib

/-
Verification development for the oml-storage library.

The filesystem backend (src/storage_disk.rs) is embedded as a pure state
machine: the base directory is a pair of association lists, one mapping an
item id to the bytes of its payload file (id.<extension>) and one mapping
an item id to the parsed content of its lock file (id.lock).  Rust strings
that the code parses or produces are modelled as lists of characters;
serialized payload bytes are lists of naturals.  Lock files are always
written by serializing a StorageLock and the JSON codec for locks is a
bijection on the values the code writes, so the lock file content is kept
in parsed form.  I/O failures of the substrate itself (unreadable disk,
permission errors) are outside the model; every fallible step of the code
itself (lock verification, payload serialization and deserialization, id
parsing) is fallible here too.
-/

/-- Lock token from src/storage.rs: owner string and acquisition instant.
The chrono timestamp is modelled as a natural number.  Equality is
structural over both fields, as derived by the source. -/
structure StorageLock where
  who : String
  when : Nat
deriving DecidableEq, Repr

/-- Error kinds surfaced by the disk backend, one per distinct eyre
message produced in src/storage_disk.rs. -/
inductive DiskError where
  /-- The message produced when lock verification fails in save or unlock. -/
  | lockInvalid
  /-- The message produced when the payload file is absent on load. -/
  | cantLoad
  /-- The message produced by force_unlock without a lock record. -/
  | notLocked
  /-- A payload serialization failure propagated out of save. -/
  | serializeFailed (msg : String)
  /-- A payload deserialization failure propagated out of load. -/
  | deserializeFailed (msg : String)
  /-- An id parse failure propagated out of all_ids. -/
  | parseIdFailed (msg : String)
  /-- A failure to parse the start offset in scan_ids. -/
  | parseStartFailed
deriving DecidableEq, Repr

/-- Outcome of Storage::lock, from src/storage.rs. -/
inductive LockResult (Item : Type) where
  | success (lock : StorageLock) (item : Item)
  | alreadyLocked (who : String)
deriving DecidableEq, Repr

/-- Outcome of Storage::lock_new, from src/storage.rs. -/
inductive LockNewResult (Item : Type) where
  | success (lock : StorageLock) (item : Item)
  | alreadyLocked (who : String)
  | alreadyExists
deriving DecidableEq, Repr

/-- Outcome of Storage::create for the disk backend.  The code has no
typed exhaustion error: when its ten tries are used up it reaches the
unfinished-code panic at src/storage_disk.rs line 98, modelled by the
second constructor. -/
inductive CreateResult (Id : Type) where
  | ok (id : Id)
  | panicTodo
deriving DecidableEq, Repr

/-- Lookup in an association list, first match wins, mirroring a file
system path lookup (paths are unique on a real directory). -/
def getAssoc {Id α : Type} [DecidableEq Id] : List (Id × α) → Id → Option α
  | [], _ => none
  | (k, v) :: t, i => if k = i then some v else getAssoc t i

/-- Overwrite the entry for a key, or append a new entry, mirroring a
file write which replaces the file content or creates the file. -/
def setAssoc {Id α : Type} [DecidableEq Id] : List (Id × α) → Id → α → List (Id × α)
  | [], i, v => [(i, v)]
  | (k, w) :: t, i, v => if k = i then (i, v) :: t else (k, w) :: setAssoc t i v

/-- Remove the entry for a key, mirroring file removal. -/
def removeAssoc {Id α : Type} [DecidableEq Id] (l : List (Id × α)) (i : Id) : List (Id × α) :=
  l.filter (fun p => p.1 ≠ i)

theorem getAssoc_setAssoc_self {Id α : Type} [DecidableEq Id]
    (l : List (Id × α)) (i : Id) (v : α) : getAssoc (setAssoc l i v) i = some v := by
  induction l with
  | nil => simp [setAssoc, getAssoc]
  | cons h t ih =>
    obtain ⟨k, w⟩ := h
    by_cases hk : k = i <;> simp [setAssoc, getAssoc, hk, ih]

theorem getAssoc_removeAssoc_self {Id α : Type} [DecidableEq Id]
    (l : List (Id × α)) (i : Id) : getAssoc (removeAssoc l i) i = none := by
  induction l with
  | nil => simp [removeAssoc, getAssoc]
  | cons h t ih =>
    obtain ⟨k, w⟩ := h
    by_cases hk : k = i
    · simpa [removeAssoc, List.filter, hk] using ih
    · simpa [removeAssoc, List.filter, hk, getAssoc] using ih

/-
Decimal text.  Rust renders a u64 with the standard decimal Display and
parses one with u64::from_str, which accepts an optional leading plus
sign, then decimal digits, and rejects values above the u64 range.
-/

/-- Decimal digit characters of a natural number, most significant first,
with explicit fuel so that the definition is structurally recursive
(the fuel used by natToDigits always suffices). -/
def natToDigitsAux : Nat → Nat → List Char
  | 0, _ => []
  | fuel + 1, n =>
    if n < 10 then [Nat.digitChar n]
    else natToDigitsAux fuel (n / 10) ++ [Nat.digitChar (n % 10)]

/-- Decimal representation of a natural number as written by the Display
implementations of the id types. -/
def natToDigits (n : Nat) : List Char :=
  natToDigitsAux (n + 1) n

/-- Accumulating decimal parser over a character list; fails on the first
character that is not a decimal digit. -/
def parseDigitsAux : List Char → Nat → Option Nat
  | [], acc => some acc
  | c :: t, acc =>
    if c.isDigit then parseDigitsAux t (acc * 10 + (c.toNat - 48)) else none

/-- Drop one leading plus sign when present, as u64::from_str does. -/
def stripPlus : List Char → List Char
  | [] => []
  | c :: t => if c = '+' then t else c :: t

/-- Model of u64::from_str over a character list: strip one optional
leading plus sign, require a nonempty digit string, reject values of
2 to the 64 or larger. -/
def parseU64Chars (l : List Char) : Except String Nat :=
  match stripPlus l with
  | [] => .error "cannot parse integer from empty string"
  | body =>
    match parseDigitsAux body 0 with
    | none => .error "invalid digit found in string"
    | some v => if v < 2 ^ 64 then .ok v else .error "number too large"

/-
The data the disk backend draws from the ITEM type parameter
(src/storage_item.rs): byte serialization of the payload, the default
payload, parsing and rendering of ids, the default id used as the start
value of the highest-id fold in all_ids.
-/

/-- The StorageItem operations the disk backend calls, gathered into an
explicit record so that the embedding stays generic over the payload and
id types exactly as the Rust trait object is. -/
structure ItemCodec (Id Item : Type) where
  serialize : Item → Except String (List Nat)
  deserialize : List Nat → Except String Item
  defaultItem : Item
  makeId : List Char → Except String Id
  idToString : Id → List Char
  defaultId : Id

/-- State of a StorageDisk base directory plus the instance-local
metadata cell: payload files keyed by id, lock files keyed by id in
parsed form, and the highest-seen-id cell of src/metadata.rs. -/
structure DiskState (Id Item : Type) where
  files : List (Id × List Nat)
  locks : List (Id × StorageLock)
  highestSeen : Option Id
deriving DecidableEq, Repr

/-- Metadata::update_highest_seen_id from src/metadata.rs: an empty cell
takes the observed id; a filled cell is replaced only when the observed
id is strictly greater. -/
def hsUpd {Id : Type} [LinearOrder Id] (h : Option Id) (i : Id) : Option Id :=
  match h with
  | none => some i
  | some x => if x < i then some i else some x

/-- StorageDisk::update_highest_seen_id: forwards the observed id to the
metadata cell. -/
def updateHighestSeenId {Id Item : Type} [LinearOrder Id]
    (s : DiskState Id Item) (i : Id) : DiskState Id Item :=
  { s with highestSeen := hsUpd s.highestSeen i }

/-- StorageDisk::exists (src/storage_disk.rs): true when the payload file
is present, else true when the lock file is present, else false; the
metadata cell observes the id in both positive branches. -/
def existsOp {Id Item : Type} [LinearOrder Id] [DecidableEq Id]
    (s : DiskState Id Item) (i : Id) : Bool × DiskState Id Item :=
  match getAssoc s.files i with
  | some _ => (true, updateHighestSeenId s i)
  | none =>
    match getAssoc s.locks i with
    | some _ => (true, updateHighestSeenId s i)
    | none => (false, s)

/-- StorageDisk::load: read the payload file, failing when it is absent,
then deserialize, propagating any failure; the metadata cell observes the
id only on success. -/
def load {Id Item : Type} [LinearOrder Id] [DecidableEq Id] (C : ItemCodec Id Item)
    (s : DiskState Id Item) (i : Id) : Except DiskError Item × DiskState Id Item :=
  match getAssoc s.files i with
  | none => (.error .cantLoad, s)
  | some b =>
    match C.deserialize b with
    | .error e => (.error (.deserializeFailed e), s)
    | .ok it => (.ok it, updateHighestSeenId s i)

/-- StorageDisk::verify_lock: false when no lock file exists or when the
recorded lock differs structurally from the presented one. -/
def verifyLock {Id Item : Type} [DecidableEq Id]
    (s : DiskState Id Item) (i : Id) (lk : StorageLock) : Bool :=
  match getAssoc s.locks i with
  | none => false
  | some r => if r = lk then true else false

/-- StorageDisk::save: verify the presented lock and fail with the lock
invalid error on mismatch; otherwise serialize the payload (propagating
failure) and overwrite the payload file, observing the id. -/
def save {Id Item : Type} [LinearOrder Id] [DecidableEq Id] (C : ItemCodec Id Item)
    (s : DiskState Id Item) (i : Id) (item : Item) (lk : StorageLock) :
    Except DiskError Unit × DiskState Id Item :=
  if verifyLock s i lk = false then (.error .lockInvalid, s)
  else
    match C.serialize item with
    | .error e => (.error (.serializeFailed e), s)
    | .ok b => (.ok (), updateHighestSeenId { s with files := setAssoc s.files i b } i)

/-- StorageDisk::lock, the critical section being run atomically thanks
to the single-permit semaphore: an existing lock file yields AlreadyLocked
with the placeholder owner string the source hardcodes; otherwise a fresh
lock token is written and the payload is loaded with unwrap_or_default,
so any load failure is replaced by the default item. -/
def lock {Id Item : Type} [LinearOrder Id] [DecidableEq Id] (C : ItemCodec Id Item)
    (s : DiskState Id Item) (i : Id) (who : String) (now : Nat) :
    LockResult Item × DiskState Id Item :=
  match getAssoc s.locks i with
  | some _ => (.alreadyLocked ":TODO:", updateHighestSeenId s i)
  | none =>
    let lk : StorageLock := ⟨who, now⟩
    let s1 := { s with locks := setAssoc s.locks i lk }
    let r := load C s1 i
    let item := match r.1 with
      | .ok it => it
      | .error _ => C.defaultItem
    (.success lk item, updateHighestSeenId r.2 i)

/-- StorageDisk::unlock: verify the presented lock, failing with the lock
invalid error on mismatch or absence, then remove only the lock file. -/
def unlock {Id Item : Type} [DecidableEq Id]
    (s : DiskState Id Item) (i : Id) (lk : StorageLock) :
    Except DiskError Unit × DiskState Id Item :=
  if verifyLock s i lk = false then (.error .lockInvalid, s)
  else (.ok (), { s with locks := removeAssoc s.locks i })

/-- StorageDisk::force_unlock: fail when no lock file exists, otherwise
remove it unconditionally. -/
def forceUnlock {Id Item : Type} [DecidableEq Id]
    (s : DiskState Id Item) (i : Id) :
    Except DiskError Unit × DiskState Id Item :=
  match getAssoc s.locks i with
  | none => (.error .notLocked, s)
  | some _ => (.ok (), { s with locks := removeAssoc s.locks i })

/-- The loop body of StorageDisk::all_ids: walk the directory entries
that carry the payload extension in order, parse each file stem back into
an id (a parse failure aborts the whole call, as the question-mark
operator in the source does), and fold the running highest id with the
strict greater-than comparison of the source.  Lock files never carry the
payload extension and are not enumerated. -/
def allIdsGo {Id Item : Type} [LinearOrder Id] (C : ItemCodec Id Item) :
    List (Id × List Nat) → Id → Except DiskError (List Id × Id)
  | [], hi => .ok ([], hi)
  | (k, _) :: t, hi =>
    match C.makeId (C.idToString k) with
    | .error e => .error (.parseIdFailed e)
    | .ok i =>
      let hi2 := if hi < i then i else hi
      match allIdsGo C t hi2 with
      | .error e => .error e
      | .ok (ids, h) => .ok (i :: ids, h)

/-- StorageDisk::all_ids: enumerate the parsed ids of all payload files;
after the loop the metadata cell observes the folded highest id, which
starts from the default id, even when the directory is empty.  On a parse
failure nothing is observed. -/
def allIds {Id Item : Type} [LinearOrder Id] (C : ItemCodec Id Item)
    (s : DiskState Id Item) : Except DiskError (List Id) × DiskState Id Item :=
  match allIdsGo C s.files C.defaultId with
  | .error e => (.error e, s)
  | .ok (ids, hi) => (.ok ids, updateHighestSeenId s hi)

/-- The tail of StorageDisk::scan_ids after the start offset has been
handled: truncate to the limit (the resize closure never runs because the
new length never exceeds the current length), then compute the scan
position as the skip count plus the page length and compare it against
the length of the already-truncated page to decide whether a continuation
token is produced. -/
def scanFinish {Id : Type} (ids : List Id) (skipCount : Nat) (limit : Option Nat) :
    List Id × Option (List Char) :=
  let page := match limit with
    | some l => ids.take (min l ids.length)
    | none => ids
  let scanPos := skipCount + page.length
  let next := if scanPos ≤ page.length then some (natToDigits scanPos) else none
  (page, next)

/-- StorageDisk::scan_ids: compute all_ids, parse the start token as a
usize (failure propagates), clamp it to the id count and drop that many
entries, then finish with scanFinish.  The state returned is in every
case the one produced by the inner all_ids call. -/
def scanIds {Id Item : Type} [LinearOrder Id] (C : ItemCodec Id Item)
    (s : DiskState Id Item) (start : Option (List Char)) (limit : Option Nat) :
    Except DiskError (List Id × Option (List Char)) × DiskState Id Item :=
  let a := allIds C s
  match a.1 with
  | .error e => (.error e, a.2)
  | .ok ids =>
    match start with
    | none => (.ok (scanFinish ids 0 limit), a.2)
    | some st =>
      match parseU64Chars st with
      | .error _ => (.error .parseStartFailed, a.2)
      | .ok sc =>
        let skipCount := min sc ids.length
        (.ok (scanFinish (ids.drop skipCount) skipCount limit), a.2)

/-- The retry loop of StorageDisk::create.  The candidate of each pass is
drawn from the stream gen, which models the successive results of
generate_next_id applied to None (a constant stream for the deterministic
id types).  A candidate that does not exist is returned; otherwise the
try counter is decremented and, when it reaches zero, the source hits the
unfinished-code panic, modelled by panicTodo. -/
def createGo {Id Item : Type} [LinearOrder Id] [DecidableEq Id] (gen : Nat → Id) :
    Nat → Nat → DiskState Id Item → CreateResult Id × DiskState Id Item
  | tries, k, s =>
    let r := existsOp s (gen k)
    if r.1 then
      match tries with
      | 0 => (.panicTodo, r.2)
      | 1 => (.panicTodo, r.2)
      | t + 2 => createGo gen (t + 1) (k + 1) r.2
    else (.ok (gen k), r.2)

/-- StorageDisk::create: ten tries of the retry loop. -/
def create {Id Item : Type} [LinearOrder Id] [DecidableEq Id]
    (s : DiskState Id Item) (gen : Nat → Id) : CreateResult Id × DiskState Id Item :=
  createGo gen 10 0 s

/-- StorageDisk::lock_new, the critical section again being atomic under
the semaphore: refuse when the item exists or a lock file exists, else
write the lock, re-check the payload file (undoing via unlock when it
appeared), and otherwise persist a default payload through save, which
verifies the just-written lock. -/
def lockNew {Id Item : Type} [LinearOrder Id] [DecidableEq Id] (C : ItemCodec Id Item)
    (s : DiskState Id Item) (i : Id) (who : String) (now : Nat) :
    Except DiskError (LockNewResult Item) × DiskState Id Item :=
  let r0 := existsOp s i
  if r0.1 then (.ok .alreadyExists, r0.2)
  else
    match getAssoc r0.2.locks i with
    | some _ => (.ok (.alreadyLocked ":TODO:"), updateHighestSeenId r0.2 i)
    | none =>
      let lk : StorageLock := ⟨who, now⟩
      let s1 := { r0.2 with locks := setAssoc r0.2.locks i lk }
      match getAssoc s1.files i with
      | some _ =>
        let u := unlock s1 i lk
        match u.1 with
        | .ok _ => (.ok .alreadyExists, u.2)
        | .error e => (.error e, u.2)
      | none =>
        let v := save C s1 i C.defaultItem lk
        match v.1 with
        | .ok _ => (.ok (.success lk C.defaultItem), updateHighestSeenId v.2 i)
        | .error e => (.error e, v.2)

/-- Storage::metadata_highest_seen_id: report the metadata cell. -/
def metadataHighestSeenId {Id Item : Type} (s : DiskState Id Item) : Option Id :=
  s.highestSeen

/-- One invocation of a disk backend operation, for reasoning about
arbitrary operation sequences on one backend instance. -/
inductive DiskOp (Id Item : Type) where
  | opExists (i : Id)
  | opLoad (i : Id)
  | opSave (i : Id) (item : Item) (lk : StorageLock)
  | opLock (i : Id) (who : String) (now : Nat)
  | opLockNew (i : Id) (who : String) (now : Nat)
  | opUnlock (i : Id) (lk : StorageLock)
  | opForceUnlock (i : Id)
  | opAllIds
  | opScanIds (start : Option (List Char)) (limit : Option Nat)
  | opCreate (gen : Nat → Id)

/-- The state reached after running one disk backend operation. -/
def applyOp {Id Item : Type} [LinearOrder Id] [DecidableEq Id] (C : ItemCodec Id Item)
    (s : DiskState Id Item) : DiskOp Id Item → DiskState Id Item
  | .opExists i => (existsOp s i).2
  | .opLoad i => (load C s i).2
  | .opSave i item lk => (save C s i item lk).2
  | .opLock i who now => (lock C s i who now).2
  | .opLockNew i who now => (lockNew C s i who now).2
  | .opUnlock i lk => (unlock s i lk).2
  | .opForceUnlock i => (forceUnlock s i).2
  | .opAllIds => (allIds C s).2
  | .opScanIds start limit => (scanIds C s start limit).2
  | .opCreate gen => (create s gen).2

/-- The state reached after running a sequence of disk backend
operations in order. -/
def applyOps {Id Item : Type} [LinearOrder Id] [DecidableEq Id] (C : ItemCodec Id Item) :
    List (DiskOp Id Item) → DiskState Id Item → DiskState Id Item
  | [], s => s
  | op :: t, s => applyOps C t (applyOp C s op)

/-
The id variants of src/storage_id.  Each variant supplies from_string,
generate_new and a Display rendering; the names below carry the variant
as a word because Lean reserves several of the original identifiers.
-/

/-- SequentialId values are u64 numbers; the value is carried as a
natural number kept below 2 to the 64 by parsing and generation. -/
def seqFromString (l : List Char) : Except String Nat :=
  parseU64Chars l

/-- Display of SequentialId: plain decimal. -/
def seqToString (n : Nat) : List Char :=
  natToDigits n

/-- SequentialId::generate_new: successor of the previous value, one when
there is no previous value.  The successor is u64 arithmetic, hence the
reduction that wraps 2 to the 64 to zero, matching the release-profile
wraparound of the source addition (a debug profile aborts there instead;
either way the mathematical successor is not produced at the maximum). -/
def seqGenerateNew (previous : Option Nat) : Nat :=
  match previous with
  | some prev => (prev + 1) % 2 ^ 64
  | none => 1

/-- ExternalId from src/storage_id/external_id.rs: the part before the
first colon (called the source-system tag here) and the part after it. -/
structure ExternalId where
  tag : List Char
  id : List Char
deriving DecidableEq, Repr

/-- Default ExternalId value, also the value generate_new returns. -/
def extDefault : ExternalId :=
  ⟨['u', 'n', 'k', 'n', 'o', 'w', 'n'], ['d', 'e', 'f', 'a', 'u', 'l', 't']⟩

/-- str::split_once: split at the first occurrence of the separator,
returning the parts before and after it, or nothing when absent. -/
def splitOnce (c : Char) : List Char → Option (List Char × List Char)
  | [] => none
  | x :: t =>
    if x = c then some ([], t)
    else
      match splitOnce c t with
      | none => none
      | some (a, b) => some (x :: a, b)

/-- ExternalId::from_string: split at the first colon and reject an empty
part on either side. -/
def extFromString (l : List Char) : Except String ExternalId :=
  match splitOnce ':' l with
  | none => .error "Invalid external ID format"
  | some (a, b) =>
    if a = [] ∨ b = [] then .error "Invalid external ID: parts must not be empty"
    else .ok ⟨a, b⟩

/-- Display of ExternalId: the two parts joined by a colon. -/
def extToString (e : ExternalId) : List Char :=
  e.tag ++ ':' :: e.id

/-- ExternalId::generate_new ignores the previous value and returns the
default sentinel. -/
def extGenerateNew (_previous : Option ExternalId) : ExternalId :=
  extDefault

/-- RandomId::from_string accepts any string unchanged. -/
def randFromString (l : List Char) : Except String (List Char) :=
  .ok l

/-- Display of RandomId: the wrapped string itself. -/
def randToString (l : List Char) : List Char :=
  l

/-- SimpleExternalId::from_string rejects only the empty string. -/
def simpleExtFromString (l : List Char) : Except String (List Char) :=
  if l = [] then .error "Invalid simple external ID: ID must not be empty"
  else .ok l

/-- Display of SimpleExternalId: the wrapped string itself. -/
def simpleExtToString (l : List Char) : List Char :=
  l

theorem parseDigitsAux_append (xs ys : List Char) (acc : Nat) :
    parseDigitsAux (xs ++ ys) acc =
      match parseDigitsAux xs acc with
      | none => none
      | some a => parseDigitsAux ys a := by
  induction xs generalizing acc with
  | nil => simp [parseDigitsAux]
  | cons c t ih =>
    by_cases hc : c.isDigit <;> simp [parseDigitsAux, hc, ih]

theorem digitChar_isDigit {d : Nat} (hd : d < 10) : (Nat.digitChar d).isDigit = true := by
  interval_cases d <;> decide

theorem digitChar_toNat {d : Nat} (hd : d < 10) : (Nat.digitChar d).toNat - 48 = d := by
  interval_cases d <;> decide

theorem digitChar_ne_plus {d : Nat} (hd : d < 10) : Nat.digitChar d ≠ '+' := by
  interval_cases d <;> decide

theorem parseDigitsAux_natToDigitsAux (fuel : Nat) :
    ∀ n acc, n < fuel →
      parseDigitsAux (natToDigitsAux fuel n) acc =
        some (acc * 10 ^ (natToDigitsAux fuel n).length + n) := by
  induction fuel with
  | zero => intro n acc h; omega
  | succ f ih =>
    intro n acc h
    by_cases hn : n < 10
    · simp [natToDigitsAux, hn, parseDigitsAux, digitChar_isDigit hn, digitChar_toNat hn]
    · have hdiv : n / 10 < f := by
        have h1 : n / 10 < n := Nat.div_lt_self (by omega) (by omega)
        omega
      have hrec := ih (n / 10) acc hdiv
      simp only [natToDigitsAux, if_neg hn, parseDigitsAux_append, hrec]
      have h10 : (n % 10) < 10 := Nat.mod_lt _ (by omega)
      simp only [parseDigitsAux, digitChar_isDigit h10, if_pos, digitChar_toNat h10,
        List.length_append, List.length_cons, List.length_nil]
      have := Nat.div_add_mod n 10
      have hpow : 10 ^ ((natToDigitsAux f (n / 10)).length + (0 + 1)) =
          10 ^ (natToDigitsAux f (n / 10)).length * 10 := by
        rw [pow_succ]
      congr 1
      rw [hpow]
      ring_nf
      omega

theorem natToDigitsAux_mem {fuel n : Nat} {c : Char}
    (hc : c ∈ natToDigitsAux fuel n) : ∃ d, d < 10 ∧ c = Nat.digitChar d := by
  induction fuel generalizing n with
  | zero => simp [natToDigitsAux] at hc
  | succ f ih =>
    by_cases hn : n < 10
    · simp [natToDigitsAux, hn] at hc
      exact ⟨n, hn, hc⟩
    · simp only [natToDigitsAux, if_neg hn, List.mem_append, List.mem_singleton] at hc
      rcases hc with hc | hc
      · exact ih hc
      · exact ⟨n % 10, Nat.mod_lt _ (by omega), hc⟩

theorem natToDigits_ne_nil (n : Nat) : natToDigits n ≠ [] := by
  unfold natToDigits natToDigitsAux
  by_cases hn : n < 10 <;> simp [hn]

/-- Round trip of the decimal text: parsing the rendered decimal form of
any u64 value recovers the value. -/
theorem parseU64Chars_natToDigits {n : Nat} (hn : n < 2 ^ 64) :
    parseU64Chars (natToDigits n) = .ok n := by
  obtain ⟨c, t, hct⟩ : ∃ c t, natToDigits n = c :: t := by
    cases h : natToDigits n with
    | nil => exact absurd h (natToDigits_ne_nil n)
    | cons c t => exact ⟨c, t, rfl⟩
  have hcmem : c ∈ natToDigits n := by rw [hct]; exact List.mem_cons_self _ _
  obtain ⟨d, hd, hcd⟩ := natToDigitsAux_mem hcmem
  have hcne : c ≠ '+' := hcd ▸ digitChar_ne_plus hd
  have hstrip : stripPlus (natToDigits n) = natToDigits n := by
    rw [hct]; simp [stripPlus, hcne]
  have hparse : parseDigitsAux (natToDigits n) 0 = some n := by
    have := parseDigitsAux_natToDigitsAux (n + 1) n 0 (Nat.lt_succ_self n)
    simpa [natToDigits] using this
  rw [parseU64Chars, hstrip, hct]
  rw [hct] at hparse
  have hn2 : n < 18446744073709551616 := by norm_num at hn; exact hn
  simp [hparse, hn2]

theorem splitOnce_of_not_mem {c : Char} {p : List Char} (hp : c ∉ p) (i : List Char) :
    splitOnce c (p ++ c :: i) = some (p, i) := by
  induction p with
  | nil => simp [splitOnce]
  | cons x t ih =>
    have hx : x ≠ c := by intro h; exact hp (h ▸ List.mem_cons_self _ _)
    have ht : c ∉ t := fun h => hp (List.mem_cons_of_mem _ h)
    simp [splitOnce, hx, ih ht]

theorem splitOnce_not_mem_left {c : Char} {l a b : List Char}
    (h : splitOnce c l = some (a, b)) : c ∉ a := by
  induction l generalizing a b with
  | nil => simp [splitOnce] at h
  | cons x t ih =>
    by_cases hx : x = c
    · rw [splitOnce, if_pos hx] at h
      injection h with h1
      injection h1 with h2 h3
      subst h2
      simp
    · rw [splitOnce, if_neg hx] at h
      cases hsp : splitOnce c t with
      | none => rw [hsp] at h; simp at h
      | some ab =>
        obtain ⟨a0, b0⟩ := ab
        rw [hsp] at h
        simp only [] at h
        injection h with h1
        injection h1 with h2 h3
        intro hmem
        rw [← h2] at hmem
        rcases List.mem_cons.mp hmem with h1 | h1
        · exact hx h1.symm
        · exact ih hsp h1

/-- Order on the metadata cell: an empty cell is below everything, a
filled cell is below a cell filled with a greater-or-equal id. -/
def hsLe {Id : Type} [LinearOrder Id] : Option Id → Option Id → Prop
  | none, _ => True
  | some _, none => False
  | some a, some b => a ≤ b

theorem hsLe_refl {Id : Type} [LinearOrder Id] (h : Option Id) : hsLe h h := by
  cases h <;> simp [hsLe]

theorem hsLe_trans {Id : Type} [LinearOrder Id] {a b c : Option Id}
    (h1 : hsLe a b) (h2 : hsLe b c) : hsLe a c := by
  cases a <;> cases b <;> cases c <;> simp_all [hsLe]
  exact le_trans h1 h2

theorem hsLe_hsUpd {Id : Type} [LinearOrder Id] (h : Option Id) (i : Id) :
    hsLe h (hsUpd h i) := by
  cases h with
  | none => simp [hsLe, hsUpd]
  | some x =>
    by_cases hx : x < i <;> simp [hsLe, hsUpd, hx]
    exact le_of_lt hx

theorem hsUpd_eq_max {Id : Type} [LinearOrder Id] (x i : Id) :
    hsUpd (some x) i = some (max x i) := by
  by_cases hx : x < i
  · rw [hsUpd, if_pos hx, max_eq_right (le_of_lt hx)]
  · rw [hsUpd, if_neg hx, max_eq_left (le_of_not_lt hx)]

theorem hsUpd_hsUpd_self {Id : Type} [LinearOrder Id] (h : Option Id) (i : Id) :
    hsUpd (hsUpd h i) i = hsUpd h i := by
  cases h with
  | none => simp [hsUpd]
  | some x =>
    by_cases hx : x < i <;> simp [hsUpd, hx]

theorem hs_le_existsOp {Id Item : Type} [LinearOrder Id] [DecidableEq Id]
    (s : DiskState Id Item) (i : Id) :
    hsLe s.highestSeen (existsOp s i).2.highestSeen := by
  unfold existsOp
  cases hf : getAssoc s.files i with
  | some b => exact hsLe_hsUpd _ _
  | none =>
    cases hl : getAssoc s.locks i with
    | some lk => exact hsLe_hsUpd _ _
    | none => exact hsLe_refl _

theorem hs_le_load {Id Item : Type} [LinearOrder Id] [DecidableEq Id]
    (C : ItemCodec Id Item) (s : DiskState Id Item) (i : Id) :
    hsLe s.highestSeen (load C s i).2.highestSeen := by
  unfold load
  split
  · exact hsLe_refl _
  · split
    · exact hsLe_refl _
    · exact hsLe_hsUpd _ _

theorem hs_le_save {Id Item : Type} [LinearOrder Id] [DecidableEq Id]
    (C : ItemCodec Id Item) (s : DiskState Id Item) (i : Id) (item : Item)
    (lk : StorageLock) :
    hsLe s.highestSeen (save C s i item lk).2.highestSeen := by
  unfold save
  by_cases hv : verifyLock s i lk = false
  · simp only [if_pos hv]
    exact hsLe_refl _
  · simp only [if_neg hv]
    cases hb : C.serialize item with
    | error e => exact hsLe_refl _
    | ok b => exact hsLe_hsUpd _ _

theorem hs_le_lock {Id Item : Type} [LinearOrder Id] [DecidableEq Id]
    (C : ItemCodec Id Item) (s : DiskState Id Item) (i : Id) (who : String) (now : Nat) :
    hsLe s.highestSeen (lock C s i who now).2.highestSeen := by
  unfold lock
  cases hl : getAssoc s.locks i with
  | some lk => exact hsLe_hsUpd _ _
  | none =>
    exact hsLe_trans (hs_le_load C { s with locks := setAssoc s.locks i ⟨who, now⟩ } i)
      (hsLe_hsUpd _ _)

theorem hs_le_unlock {Id Item : Type} [LinearOrder Id] [DecidableEq Id]
    (s : DiskState Id Item) (i : Id) (lk : StorageLock) :
    hsLe s.highestSeen (unlock s i lk).2.highestSeen := by
  unfold unlock
  by_cases hv : verifyLock s i lk = false <;> simp [hv, hsLe_refl]

theorem hs_le_forceUnlock {Id Item : Type} [LinearOrder Id] [DecidableEq Id]
    (s : DiskState Id Item) (i : Id) :
    hsLe s.highestSeen (forceUnlock s i).2.highestSeen := by
  unfold forceUnlock
  cases hl : getAssoc s.locks i with
  | none => exact hsLe_refl _
  | some lk => exact hsLe_refl _

theorem hs_le_allIds {Id Item : Type} [LinearOrder Id] [DecidableEq Id]
    (C : ItemCodec Id Item) (s : DiskState Id Item) :
    hsLe s.highestSeen (allIds C s).2.highestSeen := by
  unfold allIds
  cases hr : allIdsGo C s.files C.defaultId with
  | error e => exact hsLe_refl _
  | ok p =>
    obtain ⟨ids, hi⟩ := p
    exact hsLe_hsUpd _ _

theorem hs_le_scanIds {Id Item : Type} [LinearOrder Id] [DecidableEq Id]
    (C : ItemCodec Id Item) (s : DiskState Id Item) (start : Option (List Char))
    (limit : Option Nat) :
    hsLe s.highestSeen (scanIds C s start limit).2.highestSeen := by
  unfold scanIds
  dsimp only
  split
  · exact hs_le_allIds C s
  · split
    · exact hs_le_allIds C s
    · split
      · exact hs_le_allIds C s
      · exact hs_le_allIds C s

theorem hs_le_lockNew {Id Item : Type} [LinearOrder Id] [DecidableEq Id]
    (C : ItemCodec Id Item) (s : DiskState Id Item) (i : Id) (who : String) (now : Nat) :
    hsLe s.highestSeen (lockNew C s i who now).2.highestSeen := by
  have h0 := hs_le_existsOp s i
  unfold lockNew
  dsimp only
  split
  · exact h0
  · split
    · exact hsLe_trans h0 (hsLe_hsUpd _ _)
    · split
      · split
        · exact hsLe_trans h0
            (hs_le_unlock { (existsOp s i).2 with
              locks := setAssoc (existsOp s i).2.locks i ⟨who, now⟩ } i ⟨who, now⟩)
        · exact hsLe_trans h0
            (hs_le_unlock { (existsOp s i).2 with
              locks := setAssoc (existsOp s i).2.locks i ⟨who, now⟩ } i ⟨who, now⟩)
      · split
        · exact hsLe_trans h0
            (hsLe_trans
              (hs_le_save C { (existsOp s i).2 with
                locks := setAssoc (existsOp s i).2.locks i ⟨who, now⟩ } i C.defaultItem
                ⟨who, now⟩)
              (hsLe_hsUpd _ _))
        · exact hsLe_trans h0
            (hs_le_save C { (existsOp s i).2 with
              locks := setAssoc (existsOp s i).2.locks i ⟨who, now⟩ } i C.defaultItem
              ⟨who, now⟩)

theorem hs_le_createGo {Id Item : Type} [LinearOrder Id] [DecidableEq Id]
    (gen : Nat → Id) (tries : Nat) :
    ∀ (k : Nat) (s : DiskState Id Item),
      hsLe s.highestSeen (createGo gen tries k s).2.highestSeen := by
  induction tries using Nat.strong_induction_on with
  | _ tries ih =>
    intro k s
    have h0 := hs_le_existsOp s (gen k)
    unfold createGo
    dsimp only
    split
    · split
      · exact h0
      · exact h0
      · exact hsLe_trans h0 (ih _ (by omega) _ _)
    · exact h0

theorem hs_le_create {Id Item : Type} [LinearOrder Id] [DecidableEq Id]
    (s : DiskState Id Item) (gen : Nat → Id) :
    hsLe s.highestSeen (create s gen).2.highestSeen :=
  hs_le_createGo gen 10 0 s

theorem hs_le_applyOp {Id Item : Type} [LinearOrder Id] [DecidableEq Id]
    (C : ItemCodec Id Item) (s : DiskState Id Item) (op : DiskOp Id Item) :
    hsLe s.highestSeen (applyOp C s op).highestSeen := by
  cases op with
  | opExists i => exact hs_le_existsOp s i
  | opLoad i => exact hs_le_load C s i
  | opSave i item lk => exact hs_le_save C s i item lk
  | opLock i who now => exact hs_le_lock C s i who now
  | opLockNew i who now => exact hs_le_lockNew C s i who now
  | opUnlock i lk => exact hs_le_unlock s i lk
  | opForceUnlock i => exact hs_le_forceUnlock s i
  | opAllIds => exact hs_le_allIds C s
  | opScanIds start limit => exact hs_le_scanIds C s start limit
  | opCreate gen => exact hs_le_create s gen

theorem hs_le_applyOps {Id Item : Type} [LinearOrder Id] [DecidableEq Id]
    (C : ItemCodec Id Item) (ops : List (DiskOp Id Item)) :
    ∀ s : DiskState Id Item, hsLe s.highestSeen (applyOps C ops s).highestSeen := by
  induction ops with
  | nil => intro s; exact hsLe_refl _
  | cons op t ih =>
    intro s
    exact hsLe_trans (hs_le_applyOp C s op) (ih (applyOp C s op))

theorem load_state_locks {Id Item : Type} [LinearOrder Id] [DecidableEq Id]
    (C : ItemCodec Id Item) (s : DiskState Id Item) (i : Id) :
    (load C s i).2.locks = s.locks := by
  unfold load
  split
  · rfl
  · split <;> rfl

theorem load_state_files {Id Item : Type} [LinearOrder Id] [DecidableEq Id]
    (C : ItemCodec Id Item) (s : DiskState Id Item) (i : Id) :
    (load C s i).2.files = s.files := by
  unfold load
  split
  · rfl
  · split <;> rfl

/-- C1: save verifies the presented lock against the recorded one.  With
lock L recorded for the id, presenting a structurally different lock
makes save fail with the lock invalid error and leave the whole state,
in particular the payload record, untouched; presenting the equal lock
writes the serialized payload so that an immediate load returns the item
again, whenever the payload codec round-trips on the item. -/
theorem save_verifies_lock_and_roundtrips {Id Item : Type} [LinearOrder Id] [DecidableEq Id]
    (C : ItemCodec Id Item) (s : DiskState Id Item) (i : Id) (item : Item)
    (L Lp : StorageLock) (hrec : getAssoc s.locks i = some L) :
    (Lp ≠ L → save C s i item Lp = (.error .lockInvalid, s))
    ∧ (Lp = L → ∀ b, C.serialize item = .ok b → C.deserialize b = .ok item →
        (load C (save C s i item Lp).2 i).1 = .ok item) := by
  constructor
  · intro hne
    have hv : verifyLock s i Lp = false := by
      have hLne : ¬ L = Lp := fun h => hne h.symm
      unfold verifyLock
      rw [hrec]
      simp [hLne]
    unfold save
    rw [hv]
    simp
  · intro heq b hser hdes
    subst heq
    have hv : verifyLock s i Lp = true := by
      unfold verifyLock
      rw [hrec]
      simp
    unfold save
    rw [hv]
    simp only [Bool.true_eq_false, if_false]
    rw [hser]
    dsimp only
    unfold load
    have hfile : getAssoc (updateHighestSeenId
        ({ s with files := setAssoc s.files i b } : DiskState Id Item) i).files i = some b := by
      simpa [updateHighestSeenId] using getAssoc_setAssoc_self s.files i b
    rw [hfile]
    simp [hdes]

/-- C2: exists is the union of the payload record and the lock record,
and in particular after a successful lock, before any save has produced
a payload record, exists already reports true. -/
theorem exists_union_of_records {Id Item : Type} [LinearOrder Id] [DecidableEq Id]
    (C : ItemCodec Id Item) (s : DiskState Id Item) (i : Id) :
    ((existsOp s i).1 = true ↔
      (getAssoc s.files i).isSome = true ∨ (getAssoc s.locks i).isSome = true)
    ∧ (∀ (who : String) (now : Nat) (lk : StorageLock) (item : Item)
        (s2 : DiskState Id Item),
        lock C s i who now = (.success lk item, s2) → (existsOp s2 i).1 = true) := by
  constructor
  · unfold existsOp
    cases hf : getAssoc s.files i with
    | some b => simp
    | none =>
      cases hl : getAssoc s.locks i with
      | some lk => simp
      | none => simp
  · intro who now lk item s2 h
    unfold lock at h
    cases hl : getAssoc s.locks i with
    | some lk0 => rw [hl] at h; simp at h
    | none =>
      rw [hl] at h
      dsimp only at h
      have hs2 : s2 = updateHighestSeenId
          (load C { s with locks := setAssoc s.locks i ⟨who, now⟩ } i).2 i := by
        have := congrArg Prod.snd h
        exact this.symm
      have hlk : getAssoc s2.locks i = some ⟨who, now⟩ := by
        rw [hs2]
        show getAssoc (load C { s with locks := setAssoc s.locks i ⟨who, now⟩ } i).2.locks i
          = some ⟨who, now⟩
        rw [load_state_locks]
        exact getAssoc_setAssoc_self s.locks i ⟨who, now⟩
      unfold existsOp
      cases hf : getAssoc s2.files i with
      | some b => rfl
      | none => rw [hlk]

/-- C4: unlock verifies the presented lock.  On mismatch or absence it
fails with the lock invalid error and changes nothing; on a match it
removes only the lock record, leaves every payload record in place, and
a subsequent verify_lock with the same lock reports false. -/
theorem unlock_removes_only_lock {Id Item : Type} [LinearOrder Id] [DecidableEq Id]
    (s : DiskState Id Item) (i : Id) (L : StorageLock) :
    (getAssoc s.locks i ≠ some L → unlock s i L = (.error .lockInvalid, s))
    ∧ (getAssoc s.locks i = some L →
        unlock s i L = (.ok (), { s with locks := removeAssoc s.locks i })
        ∧ (unlock s i L).2.files = s.files
        ∧ verifyLock (unlock s i L).2 i L = false) := by
  constructor
  · intro hne
    have hv : verifyLock s i L = false := by
      unfold verifyLock
      cases hl : getAssoc s.locks i with
      | none => rfl
      | some r =>
        have hr : r ≠ L := by
          intro h
          exact hne (by rw [hl, h])
        simp [hr]
    unfold unlock
    rw [hv]
    simp
  · intro hrec
    have hv : verifyLock s i L = true := by
      unfold verifyLock
      rw [hrec]
      simp
    have hu : unlock s i L = (.ok (), { s with locks := removeAssoc s.locks i }) := by
      unfold unlock
      rw [hv]
      simp
    refine ⟨hu, by rw [hu], ?_⟩
    rw [hu]
    unfold verifyLock
    rw [show ({ s with locks := removeAssoc s.locks i } : DiskState Id Item).locks
        = removeAssoc s.locks i from rfl]
    rw [getAssoc_removeAssoc_self]

/-- C10: when no lock record blocks it, lock succeeds with the default
item not only when the payload record is absent but also when a payload
record is present and fails to deserialize: the unwrap_or_default in lock
silently replaces any load failure by the default item. -/
theorem lock_defaults_on_unreadable_payload {Id Item : Type} [LinearOrder Id] [DecidableEq Id]
    (C : ItemCodec Id Item) (s : DiskState Id Item) (i : Id) (who : String) (now : Nat)
    (hnl : getAssoc s.locks i = none) :
    (getAssoc s.files i = none →
      (lock C s i who now).1 = .success ⟨who, now⟩ C.defaultItem)
    ∧ (∀ (b : List Nat) (e : String), getAssoc s.files i = some b →
        C.deserialize b = .error e →
        (lock C s i who now).1 = .success ⟨who, now⟩ C.defaultItem) := by
  have hfiles : ({ s with locks := setAssoc s.locks i ⟨who, now⟩ } :
      DiskState Id Item).files = s.files := rfl
  constructor
  · intro hnf
    unfold lock
    rw [hnl]
    dsimp only
    simp only [load, hfiles, hnf]
  · intro b e hb hde
    unfold lock
    rw [hnl]
    dsimp only
    simp only [load, hfiles, hb, hde]

/-- The running-highest fold of the all_ids loop: starting from the
default id of the variant, each enumerated id replaces the accumulator
when strictly greater. -/
def foldHighest {Id : Type} [LinearOrder Id] (d : Id) (ids : List Id) : Id :=
  ids.foldl (fun h i => if h < i then i else h) d

theorem foldHighest_cons {Id : Type} [LinearOrder Id] (d i : Id) (t : List Id) :
    foldHighest d (i :: t) = foldHighest (if d < i then i else d) t :=
  rfl

theorem le_foldHighest {Id : Type} [LinearOrder Id] (d : Id) (ids : List Id) :
    d ≤ foldHighest d ids := by
  induction ids generalizing d with
  | nil => exact le_refl d
  | cons i t ih =>
    rw [foldHighest_cons]
    by_cases hd : d < i
    · rw [if_pos hd]
      exact le_trans (le_of_lt hd) (ih i)
    · rw [if_neg hd]
      exact ih d

theorem mem_le_foldHighest {Id : Type} [LinearOrder Id] (d : Id) (ids : List Id) :
    ∀ i ∈ ids, i ≤ foldHighest d ids := by
  induction ids generalizing d with
  | nil => intro i h; simp at h
  | cons j t ih =>
    intro i h
    rw [foldHighest_cons]
    rcases List.mem_cons.mp h with h1 | h1
    · subst h1
      by_cases hd : d < i
      · rw [if_pos hd]
        exact le_foldHighest i t
      · rw [if_neg hd]
        exact le_trans (le_of_not_lt hd) (le_foldHighest d t)
    · exact ih _ i h1

theorem allIdsGo_foldHighest {Id Item : Type} [LinearOrder Id] (C : ItemCodec Id Item)
    (fs : List (Id × List Nat)) :
    ∀ (d : Id) (ids : List Id) (hOut : Id),
      allIdsGo C fs d = .ok (ids, hOut) → hOut = foldHighest d ids := by
  induction fs with
  | nil =>
    intro d ids hOut h
    unfold allIdsGo at h
    injection h with h1
    injection h1 with h2 h3
    subst h2
    subst h3
    rfl
  | cons p t ih =>
    obtain ⟨k, b⟩ := p
    intro d ids hOut h
    unfold allIdsGo at h
    cases hm : C.makeId (C.idToString k) with
    | error e => rw [hm] at h; simp at h
    | ok i =>
      rw [hm] at h
      simp only [] at h
      cases hrec : allIdsGo C t (if d < i then i else d) with
      | error e => rw [hrec] at h; simp at h
      | ok q =>
        obtain ⟨ids0, h0⟩ := q
        rw [hrec] at h
        simp only [] at h
        injection h with h1
        injection h1 with h2 h3
        subst h2
        subst h3
        rw [foldHighest_cons]
        exact ih _ _ _ hrec

/-- C9 amended: the metadata cell update is exactly the maximum of the
current value and the observed id under the id order; exists reporting
true and a successful load, save or lock leave the cell at that maximum
of its previous value and the validated id; all_ids instead updates the
cell once, with the fold of the strictly-greater comparison over all
enumerated ids started from the default id of the variant, a value that
bounds every enumerated id but can be the never-observed default; and
over any sequence of backend operations the value reported by
metadata_highest_seen_id never decreases. -/
theorem metadata_highest_seen_amended {Id Item : Type} [LinearOrder Id] [DecidableEq Id]
    (C : ItemCodec Id Item) (s : DiskState Id Item) :
    (∀ x i : Id, hsUpd (some x) i = some (max x i))
    ∧ (∀ i : Id, hsUpd (none : Option Id) i = some i)
    ∧ (∀ i : Id, (existsOp s i).1 = true →
        (existsOp s i).2.highestSeen = hsUpd s.highestSeen i)
    ∧ (∀ (i : Id) (it : Item), (load C s i).1 = .ok it →
        (load C s i).2.highestSeen = hsUpd s.highestSeen i)
    ∧ (∀ (i : Id) (item : Item) (lk : StorageLock), (save C s i item lk).1 = .ok () →
        (save C s i item lk).2.highestSeen = hsUpd s.highestSeen i)
    ∧ (∀ (i : Id) (who : String) (now : Nat) (lk : StorageLock) (it : Item),
        (lock C s i who now).1 = .success lk it →
        (lock C s i who now).2.highestSeen = hsUpd s.highestSeen i)
    ∧ (∀ ids : List Id, (allIds C s).1 = .ok ids →
        (allIds C s).2.highestSeen = hsUpd s.highestSeen (foldHighest C.defaultId ids)
        ∧ C.defaultId ≤ foldHighest C.defaultId ids
        ∧ ∀ i ∈ ids, i ≤ foldHighest C.defaultId ids)
    ∧ (∀ ops : List (DiskOp Id Item),
        hsLe (metadataHighestSeenId s) (metadataHighestSeenId (applyOps C ops s))) := by
  refine ⟨hsUpd_eq_max, fun i => rfl, ?_, ?_, ?_, ?_, ?_, ?_⟩
  · intro i h
    unfold existsOp
    cases hf : getAssoc s.files i with
    | some b => rfl
    | none =>
      cases hl : getAssoc s.locks i with
      | some lk => rfl
      | none =>
        exfalso
        unfold existsOp at h
        rw [hf, hl] at h
        simp at h
  · intro i it h
    unfold load
    cases hf : getAssoc s.files i with
    | none =>
      exfalso
      unfold load at h
      rw [hf] at h
      simp at h
    | some b =>
      cases hd : C.deserialize b with
      | error e =>
        exfalso
        unfold load at h
        rw [hf] at h
        simp [hd] at h
      | ok it2 => simp [hd, updateHighestSeenId]
  · intro i item lk h
    unfold save
    by_cases hv : verifyLock s i lk = false
    · exfalso
      unfold save at h
      rw [hv] at h
      simp at h
    · rw [if_neg hv]
      cases hb : C.serialize item with
      | error e =>
        exfalso
        unfold save at h
        rw [if_neg hv] at h
        simp [hb] at h
      | ok b => rfl
  · intro i who now lk it h
    unfold lock
    cases hl : getAssoc s.locks i with
    | some lk0 =>
      exfalso
      unfold lock at h
      rw [hl] at h
      simp at h
    | none =>
      dsimp only
      have key : (load C ({ s with locks := setAssoc s.locks i ⟨who, now⟩ } :
            DiskState Id Item) i).2.highestSeen = s.highestSeen
          ∨ (load C ({ s with locks := setAssoc s.locks i ⟨who, now⟩ } :
            DiskState Id Item) i).2.highestSeen = hsUpd s.highestSeen i := by
        unfold load
        split
        · exact Or.inl rfl
        · split
          · exact Or.inl rfl
          · exact Or.inr rfl
      rcases key with hk | hk
      · show hsUpd (load C ({ s with locks := setAssoc s.locks i ⟨who, now⟩ } :
            DiskState Id Item) i).2.highestSeen i = hsUpd s.highestSeen i
        rw [hk]
      · show hsUpd (load C ({ s with locks := setAssoc s.locks i ⟨who, now⟩ } :
            DiskState Id Item) i).2.highestSeen i = hsUpd s.highestSeen i
        rw [hk, hsUpd_hsUpd_self]
  · intro ids h
    unfold allIds at h ⊢
    cases hr : allIdsGo C s.files C.defaultId with
    | error e =>
      exfalso
      rw [hr] at h
      simp at h
    | ok p =>
      obtain ⟨ids0, hOut⟩ := p
      rw [hr] at h
      injection h with h1
      subst h1
      have hf := allIdsGo_foldHighest C s.files C.defaultId ids0 hOut hr
      subst hf
      exact ⟨rfl, le_foldHighest _ _, mem_le_foldHighest _ _⟩
  · intro ops
    exact hs_le_applyOps C ops s

/-- C7: parsing the rendered text of an id recovers the id, for every
value a successful from_string can produce and every value generate_new
can produce, in each of the four id variants. -/
theorem make_id_of_to_string_roundtrip :
    (∀ n : Nat, n < 2 ^ 64 → seqFromString (seqToString n) = .ok n)
    ∧ (∀ p : Option Nat, seqFromString (seqToString (seqGenerateNew p)) =
        .ok (seqGenerateNew p))
    ∧ (∀ (l : List Char) (e : ExternalId), extFromString l = .ok e →
        extFromString (extToString e) = .ok e)
    ∧ extFromString (extToString (extGenerateNew none)) = .ok (extGenerateNew none)
    ∧ (∀ r : List Char, randFromString (randToString r) = .ok r)
    ∧ (∀ l x : List Char, simpleExtFromString l = .ok x →
        simpleExtFromString (simpleExtToString x) = .ok x) := by
  refine ⟨?_, ?_, ?_, ?_, ?_, ?_⟩
  · intro n hn
    exact parseU64Chars_natToDigits hn
  · intro p
    have hlt : seqGenerateNew p < 2 ^ 64 := by
      cases p with
      | none => norm_num [seqGenerateNew]
      | some prev => exact Nat.mod_lt _ (by positivity)
    exact parseU64Chars_natToDigits hlt
  · intro l e h
    unfold extFromString at h
    cases hsp : splitOnce ':' l with
    | none => rw [hsp] at h; simp at h
    | some ab =>
      obtain ⟨a, b⟩ := ab
      rw [hsp] at h
      simp only [] at h
      by_cases hab : a = [] ∨ b = []
      · rw [if_pos hab] at h
        simp at h
      · rw [if_neg hab] at h
        injection h with h1
        have hna : ':' ∉ a := splitOnce_not_mem_left hsp
        subst h1
        unfold extFromString extToString
        dsimp only
        rw [splitOnce_of_not_mem hna b]
        simp [hab]
  · rfl
  · intro r
    rfl
  · intro l x h
    unfold simpleExtFromString at h
    by_cases hl : l = []
    · rw [if_pos hl] at h
      simp at h
    · rw [if_neg hl] at h
      injection h with h1
      subst h1
      unfold simpleExtFromString simpleExtToString
      rw [if_neg hl]

/-- C8 as stated fails at the top of the u64 range: the successor of the
maximum u64 value wraps to zero and is not greater than the previous id. -/
theorem seq_generate_new_wraps_at_max :
    seqGenerateNew (some (2 ^ 64 - 1)) = 0
    ∧ ¬ ((2 ^ 64 - 1 : Nat) < seqGenerateNew (some (2 ^ 64 - 1))) := by
  have h0 : seqGenerateNew (some (2 ^ 64 - 1)) = 0 := by
    unfold seqGenerateNew
    norm_num
  exact ⟨h0, by rw [h0]; exact Nat.not_lt_zero _⟩

/-- C8 amended: generate_new of a previous id is the u64 successor, equal
to the mathematical successor and strictly greater than the previous id
for every value below the maximum u64 value; generate_new without a
previous id is one. -/
theorem seq_generate_new_succ :
    seqGenerateNew none = 1
    ∧ (∀ n : Nat, seqGenerateNew (some n) = (n + 1) % 2 ^ 64)
    ∧ (∀ n : Nat, n < 2 ^ 64 - 1 →
        seqGenerateNew (some n) = n + 1 ∧ n < seqGenerateNew (some n)) := by
  refine ⟨rfl, fun n => rfl, ?_⟩
  intro n hn
  have hone : (1 : Nat) ≤ 2 ^ 64 := Nat.one_le_two_pow
  have hlt : n + 1 < 2 ^ 64 := by omega
  have hmod : seqGenerateNew (some n) = n + 1 := by
    show (n + 1) % 2 ^ 64 = n + 1
    exact Nat.mod_eq_of_lt hlt
  exact ⟨hmod, by rw [hmod]; omega⟩

/-- A concrete instantiation for evaluation: ids are u64 numbers as in
the sequential variant, the payload is an empty test item with one fixed
serialized byte, and deserialization accepts only that byte string. -/
def natUnitCodec : ItemCodec Nat Unit where
  serialize _ := .ok [0]
  deserialize b := if b = [0] then .ok () else .error "invalid payload"
  defaultItem := ()
  makeId := parseU64Chars
  idToString := natToDigits
  defaultId := 0

/-- A base directory with no files at all. -/
def emptyState : DiskState Nat Unit :=
  ⟨[], [], none⟩

/-- A base directory holding only a lock file for id one, owned by a. -/
def lockedByA : DiskState Nat Unit :=
  ⟨[], [(1, ⟨"a", 0⟩)], none⟩

/-- A base directory holding payload files for ids one to four. -/
def fourItems : DiskState Nat Unit :=
  ⟨[(1, [0]), (2, [0]), (3, [0]), (4, [0])], [], none⟩

/-- A base directory holding a payload file for id one only. -/
def oneItem : DiskState Nat Unit :=
  ⟨[(1, [0])], [], none⟩

/-- A base directory whose payload file for id one does not deserialize. -/
def corruptItem : DiskState Nat Unit :=
  ⟨[(1, [9])], [], none⟩

/-- C3: the claim fails on the code.  While owner a holds a valid lock on
an id, a second lock call by owner b returns AlreadyLocked carrying the
hardcoded placeholder string of the source, not the identifier a of the
current owner. -/
theorem lock_reports_placeholder_not_owner :
    (lock natUnitCodec lockedByA 1 "b" 5).1 = .alreadyLocked ":TODO:"
    ∧ ":TODO:" ≠ "a" :=
  ⟨rfl, by decide⟩

/-- C5: the claim fails on the code.  When every candidate of the ten
tries already exists, as happens for the sequential id variant whenever
item one exists because generate_new without a previous value is always
one, create reaches the unfinished-code panic instead of returning a
typed exhausted-id-space error, and no such error exists in the code. -/
theorem create_exhaustion_hits_unfinished_panic :
    (create oneItem (fun _ => seqGenerateNew none)).1 = .panicTodo :=
  rfl

/-- C6: the claim fails on the code.  Over four stored ids, scanning from
offset one with limit two returns two ids and no continuation although
the scan has not reached the end, so chaining loses the fourth id; and
scanning from the start with limit four returns every id together with a
spurious continuation token although the scan has reached the end.  The
comparison deciding the token uses the length of the already-truncated
page instead of the total count. -/
theorem scan_ids_continuation_wrong :
    (scanIds natUnitCodec fourItems (some ['1']) (some 2)).1 = .ok ([2, 3], none)
    ∧ (scanIds natUnitCodec fourItems none (some 4)).1 = .ok ([1, 2, 3, 4], some ['4'])
    ∧ (allIds natUnitCodec fourItems).1 = .ok [1, 2, 3, 4] :=
  ⟨rfl, rfl, rfl⟩

/-- Witness for C1 at a concrete input: with lock a recorded, saving
under lock b fails with the lock invalid error leaving the state intact,
and saving under lock a makes an immediate load return the item. -/
theorem save_verifies_lock_and_roundtrips_witness :
    save natUnitCodec lockedByA 1 () ⟨"b", 0⟩ = (.error .lockInvalid, lockedByA)
    ∧ (load natUnitCodec (save natUnitCodec lockedByA 1 () ⟨"a", 0⟩).2 1).1 = .ok () :=
  ⟨(save_verifies_lock_and_roundtrips natUnitCodec lockedByA 1 () ⟨"a", 0⟩ ⟨"b", 0⟩ rfl).1
      (by decide),
    (save_verifies_lock_and_roundtrips natUnitCodec lockedByA 1 () ⟨"a", 0⟩ ⟨"a", 0⟩ rfl).2
      rfl [0] rfl rfl⟩

/-- Witness for C2 at a concrete input: right after a successful lock on
an absent item, exists reports true. -/
theorem exists_union_of_records_witness :
    (existsOp (lock natUnitCodec emptyState 1 "a" 0).2 1).1 = true :=
  (exists_union_of_records natUnitCodec emptyState 1).2 "a" 0 ⟨"a", 0⟩ ()
    (lock natUnitCodec emptyState 1 "a" 0).2 rfl

/-- Witness for C4 at a concrete input: unlocking with the wrong lock
fails and changes nothing, unlocking with the recorded lock makes a
subsequent verify_lock report false. -/
theorem unlock_removes_only_lock_witness :
    unlock lockedByA 1 ⟨"b", 0⟩ = (.error .lockInvalid, lockedByA)
    ∧ verifyLock (unlock lockedByA 1 ⟨"a", 0⟩).2 1 ⟨"a", 0⟩ = false :=
  ⟨(unlock_removes_only_lock lockedByA 1 ⟨"b", 0⟩).1 (by decide),
    ((unlock_removes_only_lock lockedByA 1 ⟨"a", 0⟩).2 rfl).2.2⟩

/-- Witness for C7 at concrete inputs in three id variants. -/
theorem make_id_of_to_string_roundtrip_witness :
    seqFromString (seqToString 42) = .ok 42
    ∧ extFromString (extToString ⟨['a'], ['b']⟩) = .ok ⟨['a'], ['b']⟩
    ∧ simpleExtFromString (simpleExtToString ['a']) = .ok ['a'] :=
  ⟨make_id_of_to_string_roundtrip.1 42 (by norm_num),
    make_id_of_to_string_roundtrip.2.2.1 ['a', ':', 'b'] ⟨['a'], ['b']⟩ rfl,
    make_id_of_to_string_roundtrip.2.2.2.2.2 ['a'] ['a'] rfl⟩

/-- Witness for the amended C8 at a concrete input below the wrap. -/
theorem seq_generate_new_succ_witness :
    seqGenerateNew (some 5) = 6 ∧ 5 < seqGenerateNew (some 5) :=
  seq_generate_new_succ.2.2 5 (by norm_num)

/-- The default value of SimpleExternalId, the word default itself. -/
def simpleDefaultId : List Char :=
  ['d', 'e', 'f', 'a', 'u', 'l', 't']

/-- A concrete instantiation with SimpleExternalId ids, whose derived
order is lexicographic over the wrapped string. -/
def simpleExtCodec : ItemCodec (List Char) Unit where
  serialize _ := .ok [0]
  deserialize b := if b = [0] then .ok () else .error "invalid payload"
  defaultItem := ()
  makeId := simpleExtFromString
  idToString := simpleExtToString
  defaultId := simpleDefaultId

/-- A base directory holding one payload file whose SimpleExternalId is
the one-letter string a, which orders below the default id. -/
def oneSimpleItem : DiskState (List Char) Unit :=
  ⟨[(['a'], [0])], [], none⟩

/-- C9 as stated fails on the code: all_ids seeds its running-highest
fold with the default id of the variant rather than with the ids it
observes.  Over a directory holding exactly the SimpleExternalId a,
all_ids enumerates a alone yet writes the never-observed default id into
the empty metadata cell, whereas the maximum of the current value and the
observed id would be a; and over an empty directory, where all_ids
validates no item at all, the cell is still overwritten with the default
id. -/
theorem all_ids_sets_cell_to_unobserved_default :
    ((allIds simpleExtCodec oneSimpleItem).1 = .ok [['a']]
      ∧ (allIds simpleExtCodec oneSimpleItem).2.highestSeen = some simpleDefaultId
      ∧ hsUpd oneSimpleItem.highestSeen ['a'] = some ['a']
      ∧ some simpleDefaultId ≠ (some ['a'] : Option (List Char)))
    ∧ ((allIds natUnitCodec emptyState).1 = .ok []
      ∧ (allIds natUnitCodec emptyState).2.highestSeen = some 0
      ∧ emptyState.highestSeen = none) :=
  ⟨⟨rfl, rfl, rfl, by decide⟩, rfl, rfl, rfl⟩

/-- Witness for the amended C9 at concrete inputs: exists reporting true
pushes the observed id into the metadata cell, and all_ids pushes the
default-seeded fold of the enumerated ids. -/
theorem metadata_highest_seen_amended_witness :
    (existsOp oneItem 1).2.highestSeen = hsUpd oneItem.highestSeen 1
    ∧ (allIds natUnitCodec fourItems).2.highestSeen
        = hsUpd fourItems.highestSeen (foldHighest natUnitCodec.defaultId [1, 2, 3, 4]) :=
  ⟨(metadata_highest_seen_amended natUnitCodec oneItem).2.2.1 1 rfl,
    ((metadata_highest_seen_amended natUnitCodec fourItems).2.2.2.2.2.2.1
      [1, 2, 3, 4] rfl).1⟩

/-- Witness for C10 at a concrete input: locking an id whose payload file
does not deserialize succeeds with the default item. -/
theorem lock_defaults_on_unreadable_payload_witness :
    (lock natUnitCodec corruptItem 1 "a" 7).1 = .success ⟨"a", 7⟩ () :=
  (lock_defaults_on_unreadable_payload natUnitCodec corruptItem 1 "a" 7 rfl).2 [9]
    "invalid payload" rfl rfl
